import Mathlib

/-!
Shallow embedding of two programs from the DesignPatterns repository:
the Flyweight example (`Structural/Flyweight/main.cpp`) and the Observer
example (`Behavioral/Observer/main.cpp`), together with proofs of the
claims the specification makes about them.
-/

set_option autoImplicit false

namespace DesignPatterns

/-! ## Flyweight (`src/Structural/Flyweight/main.cpp`): definitions -/

/-- `SharedState`: the intrinsic state of a flyweight, three string fields
`brand_`, `model_`, `color_`. -/
structure SharedState where
  brand_ : String
  model_ : String
  color_ : String
deriving DecidableEq, Repr

/-- `FlyweightFactory::GetKey`: `ss.brand_ + "_" + ss.model_ + "_" + ss.color_`. -/
def GetKey (ss : SharedState) : String :=
  ss.brand_ ++ "_" ++ ss.model_ ++ "_" ++ ss.color_

/-- The `Flyweight` class holds a heap copy of one `SharedState`; its
observable content is exactly that `SharedState`, so the registry
`std::unordered_map<std::string, Flyweight>` is embedded as an association
list from keys to `SharedState`.  (Being unordered, the C++ map fixes no
iteration order; none of the claims depends on the order, only on lookup,
membership and size, which the association list models exactly.) -/
structure FlyweightFactory where
  flyweights_ : List (String × SharedState)
deriving DecidableEq, Repr

/-- Lookup in the registry map (`flyweights_.find(key)` / `flyweights_.at(key)`). -/
def mapFind? (l : List (String × SharedState)) (k : String) : Option SharedState :=
  match l with
  | [] => none
  | p :: rest => if p.1 = k then some p.2 else mapFind? rest k

/-- `std::unordered_map::insert`: adds the pair only when the key is not
already present (never overwrites). -/
def mapInsert (l : List (String × SharedState)) (k : String) (v : SharedState) :
    List (String × SharedState) :=
  match mapFind? l k with
  | some _ => l
  | none => l ++ [(k, v)]

/-- `FlyweightFactory::FlyweightFactory(initializer_list)`: for each state in
order, `flyweights_.insert(make_pair(GetKey(ss), Flyweight(&ss)))`. -/
def mkFactory (states : List SharedState) : FlyweightFactory :=
  ⟨states.foldl (fun l ss => mapInsert l (GetKey ss) ss) []⟩

/-- `FlyweightFactory::GetFlyweight`: computes `key = GetKey(shared_state)`;
if absent, prints the "creating a new one" line and inserts a copy of the
state under `key`; otherwise prints the "Reusing existing flyweight" line.
Returns `flyweights_.at(key)`.  Result: (updated factory, returned flyweight
content, `created` flag — `true` for the "creating" message, `false` for the
"Reusing" message). -/
def FlyweightFactory.GetFlyweight (f : FlyweightFactory) (shared_state : SharedState) :
    FlyweightFactory × SharedState × Bool :=
  match mapFind? f.flyweights_ (GetKey shared_state) with
  | some fw => (f, fw, false)
  | none => (⟨f.flyweights_ ++ [(GetKey shared_state, shared_state)]⟩, shared_state, true)

/-- The number of entries in the registry (`flyweights_.size()`, printed by
`ListFlyweights`; the `count()` of the spec). -/
def FlyweightFactory.count (f : FlyweightFactory) : Nat :=
  f.flyweights_.length

/-- The line `GetFlyweight` prints for each of its two branches. -/
def reportOf (created : Bool) : String :=
  if created then "FlyweightFactory: Can\x27t find a flyweight, creating a new one.\n"
  else "FlyweightFactory: Reusing existing flyweight.\n"

/-- Run a sequence of `GetFlyweight` calls, keeping only the factory. -/
def runFactory (f : FlyweightFactory) (ops : List SharedState) : FlyweightFactory :=
  ops.foldl (fun g ss => (g.GetFlyweight ss).1) f

/-- The keys currently stored in the registry. -/
def FlyweightFactory.keys (f : FlyweightFactory) : List String :=
  f.flyweights_.map Prod.fst

/-- The state `{"BMW", "M5", "red"}` from the demo scenario. -/
def bmwM5red : SharedState := ⟨"BMW", "M5", "red"⟩

/-- The state `{"BMW", "X1", "red"}` from the demo scenario. -/
def bmwX1red : SharedState := ⟨"BMW", "X1", "red"⟩

/-- A state whose first field contains the separator character. -/
def sepInBrand : SharedState := ⟨"A_B", "C", "D"⟩

/-- A different state whose second field contains the separator character,
chosen so that both states build the same composite key. -/
def sepInModel : SharedState := ⟨"A", "B_C", "D"⟩

/-! ## Observer (`src/Behavioral/Observer/main.cpp`): definitions

Observers are registered in the `std::list<IObserver*>` of the subject by
pointer; the embedding identifies each observer by its assigned number (the
`Observer` constructor makes these unique, so they serve as identities), so
the list of `IObserver*` becomes a `List Nat`.  The C++ `static int` counter
is embedded as an unbounded `Nat` (the demo constructs five observers;
overflow never comes into play).  Console output of `Notify` is modelled as
a list of events, each rendered to the exact line the code prints. -/

/-- The observable effect of one step of `Subject::Notify`: the
`HowManyObservers` announcement, or one `Update` callback delivered to an
observer (which stores the message and prints it via `PrintInfo`). -/
inductive Event where
  | countAnnounce : Nat → Event
  | update : Nat → String → Event
deriving DecidableEq, Repr

/-- The exact console line each event produces. -/
def Event.render : Event → String
  | .countAnnounce n => "There are " ++ toString n ++ " observers in the list.\n"
  | .update o m => "Observer \"" ++ toString o ++ "\" a new message is available --> " ++ m ++ "\n"

/-- All console output of a list of events. -/
def renderAll (es : List Event) : String :=
  String.join (es.map Event.render)

/-- `Subject`: the subscriber list `list_observer_` (a `std::list` of
observer identities, in attachment order) and the current `message_`. -/
structure Subject where
  list_observer_ : List Nat
  message_ : String
deriving DecidableEq, Repr

/-- `Subject::Attach`: `list_observer_.push_back(observer)`. -/
def Subject.Attach (s : Subject) (observer : Nat) : Subject :=
  { s with list_observer_ := s.list_observer_ ++ [observer] }

/-- `Subject::Detach`: `list_observer_.remove(observer)` — `std::list::remove`
erases every element equal to `observer`. -/
def Subject.Detach (s : Subject) (observer : Nat) : Subject :=
  { s with list_observer_ := s.list_observer_.filter (fun x => x ≠ observer) }

/-- `Subject::Notify`: prints the `HowManyObservers` announcement, then walks
`list_observer_` invoking `Update(message_)` on each entry in order. -/
def Subject.Notify (s : Subject) : List Event :=
  Event.countAnnounce s.list_observer_.length ::
    s.list_observer_.map (fun o => Event.update o s.message_)

/-- `Subject::CreateMessage(std::string message = "Empty")`: stores the
message, then calls `Notify`.  Returns the updated subject and the events
`Notify` produced. -/
def Subject.CreateMessage (s : Subject) (message : String := "Empty") :
    Subject × List Event :=
  let s' := { s with message_ := message }
  (s', s'.Notify)

/-- `Subject::HowManyObservers` reads this count (the `size()` of the spec). -/
def Subject.size (s : Subject) : Nat :=
  s.list_observer_.length

/-- The `Update` callback invocations among a list of events, in order. -/
def updatesOf (es : List Event) : List (Nat × String) :=
  es.filterMap (fun e =>
    match e with
    | .update o m => some (o, m)
    | .countAnnounce _ => none)

/-- Modelled from the words of the spec, for comparison with
`Subject.Detach`: detach "removes the first (only, in practice) matching
entry". -/
def detachFirstSpec (s : Subject) (observer : Nat) : Subject :=
  { s with list_observer_ := s.list_observer_.erase observer }

/-- Attach each observer of a list in order (`Attach` is called once per
observer, from the `Observer` constructor). -/
def attachAll (s : Subject) (os : List Nat) : Subject :=
  os.foldl Subject.Attach s

/-- A client-visible operation on the observer world: constructing a new
`Observer(subject)` (which attaches itself and draws `++static_number_`), or
calling `Detach` / `Attach` with an existing observer identity. -/
inductive Op where
  | newObserver : Op
  | detachObs : Nat → Op
  | attachObs : Nat → Op
deriving DecidableEq, Repr

/-- The process-wide state the Observer demo manipulates:
`Observer::static_number_` (the shared counter), the numbers assigned to
constructed observers in construction order, and the subject. -/
structure ObsWorld where
  static_number_ : Nat
  constructed : List Nat
  subject : Subject
deriving DecidableEq, Repr

/-- State at program start: `int Observer::static_number_ = 0;`, no observer
constructed, a default-constructed `Subject`. -/
def initialWorld : ObsWorld :=
  ⟨0, [], ⟨[], ""⟩⟩

/-- One operation.  `Observer::Observer(Subject&)` attaches `this` and then
assigns `this->number_ = ++Observer::static_number_`; the identity of the
new observer is that number. -/
def ObsWorld.step (w : ObsWorld) : Op → ObsWorld
  | .newObserver =>
    let n := w.static_number_ + 1
    { static_number_ := n
      constructed := w.constructed ++ [n]
      subject := w.subject.Attach n }
  | .detachObs o => { w with subject := w.subject.Detach o }
  | .attachObs o => { w with subject := w.subject.Attach o }

/-- Run a sequence of operations. -/
def runOps (w : ObsWorld) (ops : List Op) : ObsWorld :=
  ops.foldl ObsWorld.step w

/-! ## Registry lemmas -/

theorem mapFind?_cons (p : String × SharedState) (rest : List (String × SharedState))
    (k : String) :
    mapFind? (p :: rest) k = if p.1 = k then some p.2 else mapFind? rest k := rfl

theorem mapFind?_eq_none_iff (l : List (String × SharedState)) (k : String) :
    mapFind? l k = none ↔ k ∉ l.map Prod.fst := by
  induction l with
  | nil => simp [mapFind?]
  | cons p rest ih =>
    by_cases h : p.1 = k
    · simp [mapFind?_cons, h]
    · rw [mapFind?_cons, if_neg h, ih]
      constructor
      · intro hk
        simp only [List.map_cons, List.mem_cons, not_or]
        exact ⟨fun he => h he.symm, hk⟩
      · intro hk
        simp only [List.map_cons, List.mem_cons, not_or] at hk
        exact hk.2

theorem mapFind?_isSome_iff (l : List (String × SharedState)) (k : String) :
    (mapFind? l k).isSome ↔ k ∈ l.map Prod.fst := by
  rw [Option.isSome_iff_ne_none, ne_eq, mapFind?_eq_none_iff, not_not]

theorem mapFind?_append_of_none (l l' : List (String × SharedState)) (k : String)
    (h : mapFind? l k = none) : mapFind? (l ++ l') k = mapFind? l' k := by
  induction l with
  | nil => simp
  | cons p rest ih =>
    by_cases hp : p.1 = k
    · simp [mapFind?, hp] at h
    · simp only [mapFind?, hp, if_false] at h ⊢
      exact ih h

theorem getFlyweight_fst (f : FlyweightFactory) (ss : SharedState) :
    (f.GetFlyweight ss).1 = ⟨mapInsert f.flyweights_ (GetKey ss) ss⟩ := by
  unfold FlyweightFactory.GetFlyweight mapInsert
  cases h : mapFind? f.flyweights_ (GetKey ss) <;> simp [h]

theorem getFlyweight_found (f : FlyweightFactory) (ss fw : SharedState)
    (h : mapFind? f.flyweights_ (GetKey ss) = some fw) :
    f.GetFlyweight ss = (f, fw, false) := by
  unfold FlyweightFactory.GetFlyweight
  rw [h]

theorem getFlyweight_notFound (f : FlyweightFactory) (ss : SharedState)
    (h : mapFind? f.flyweights_ (GetKey ss) = none) :
    f.GetFlyweight ss = (⟨f.flyweights_ ++ [(GetKey ss, ss)]⟩, ss, true) := by
  unfold FlyweightFactory.GetFlyweight
  rw [h]

theorem keys_mapInsert (l : List (String × SharedState)) (k : String) (v : SharedState) :
    (mapInsert l k v).map Prod.fst =
      if k ∈ l.map Prod.fst then l.map Prod.fst else l.map Prod.fst ++ [k] := by
  unfold mapInsert
  cases h : mapFind? l k with
  | none =>
    rw [mapFind?_eq_none_iff] at h
    simp [h]
  | some v' =>
    have : (mapFind? l k).isSome := by rw [h]; rfl
    rw [mapFind?_isSome_iff] at this
    simp [this]

theorem nodup_keys_mapInsert (l : List (String × SharedState)) (k : String) (v : SharedState)
    (h : (l.map Prod.fst).Nodup) : ((mapInsert l k v).map Prod.fst).Nodup := by
  rw [keys_mapInsert]
  by_cases hk : k ∈ l.map Prod.fst
  · simpa [hk]
  · simpa [hk, List.nodup_append]

theorem toFinset_keys_mapInsert (l : List (String × SharedState)) (k : String) (v : SharedState) :
    ((mapInsert l k v).map Prod.fst).toFinset = insert k (l.map Prod.fst).toFinset := by
  rw [keys_mapInsert]
  by_cases hk : k ∈ l.map Prod.fst
  · rw [if_pos hk]
    have : k ∈ (l.map Prod.fst).toFinset := List.mem_toFinset.mpr hk
    rw [Finset.insert_eq_self.mpr this]
  · rw [if_neg hk]
    ext x
    simp [or_comm]

theorem mem_keys_mapInsert_self (l : List (String × SharedState)) (k : String)
    (v : SharedState) : k ∈ (mapInsert l k v).map Prod.fst := by
  rw [keys_mapInsert]
  by_cases hk : k ∈ l.map Prod.fst
  · rwa [if_pos hk]
  · rw [if_neg hk]
    exact List.mem_append_right _ (List.mem_singleton_self k)

theorem keys_subset_mapInsert (l : List (String × SharedState)) (k : String)
    (v : SharedState) : ∀ x ∈ l.map Prod.fst, x ∈ (mapInsert l k v).map Prod.fst := by
  intro x hx
  rw [keys_mapInsert]
  by_cases hk : k ∈ l.map Prod.fst
  · rwa [if_pos hk]
  · rw [if_neg hk]
    exact List.mem_append_left _ hx

theorem runFactory_nil (f : FlyweightFactory) : runFactory f [] = f := rfl

theorem runFactory_cons (f : FlyweightFactory) (ss : SharedState) (ops : List SharedState) :
    runFactory f (ss :: ops) = runFactory (f.GetFlyweight ss).1 ops := rfl

theorem runFactory_append (f : FlyweightFactory) (l l' : List SharedState) :
    runFactory f (l ++ l') = runFactory (runFactory f l) l' := by
  unfold runFactory
  rw [List.foldl_append]

theorem mkFactory_eq_runFactory (states : List SharedState) :
    mkFactory states = runFactory ⟨[]⟩ states := by
  suffices h : ∀ (sts : List SharedState) (l : List (String × SharedState)),
      runFactory ⟨l⟩ sts = ⟨sts.foldl (fun m ss => mapInsert m (GetKey ss) ss) l⟩ by
    rw [mkFactory, h]
  intro sts
  induction sts with
  | nil => intro l; rfl
  | cons ss rest ih =>
    intro l
    rw [runFactory_cons, getFlyweight_fst]
    exact ih _

theorem nodup_keys_runFactory (f : FlyweightFactory) (ops : List SharedState)
    (h : (f.flyweights_.map Prod.fst).Nodup) :
    ((runFactory f ops).flyweights_.map Prod.fst).Nodup := by
  induction ops generalizing f with
  | nil => exact h
  | cons ss rest ih =>
    rw [runFactory_cons, getFlyweight_fst]
    exact ih _ (nodup_keys_mapInsert _ _ _ h)

theorem toFinset_keys_runFactory (f : FlyweightFactory) (ops : List SharedState) :
    ((runFactory f ops).flyweights_.map Prod.fst).toFinset =
      (f.flyweights_.map Prod.fst).toFinset ∪ (ops.map GetKey).toFinset := by
  induction ops generalizing f with
  | nil => simp [runFactory_nil]
  | cons ss rest ih =>
    rw [runFactory_cons, getFlyweight_fst, ih]
    simp only [toFinset_keys_mapInsert, List.map_cons, List.toFinset_cons]
    ext x
    simp only [Finset.mem_union, Finset.mem_insert]
    tauto

theorem count_eq_card_of_nodup (f : FlyweightFactory)
    (h : (f.flyweights_.map Prod.fst).Nodup) :
    f.count = (f.flyweights_.map Prod.fst).toFinset.card := by
  rw [List.toFinset_card_of_nodup h, FlyweightFactory.count, List.length_map]

/-- The key-consistency invariant is preserved by one `GetFlyweight` call. -/
theorem keyConsistent_getFlyweight (f : FlyweightFactory) (ss : SharedState)
    (h : ∀ p ∈ f.flyweights_, p.1 = GetKey p.2) :
    ∀ p ∈ (f.GetFlyweight ss).1.flyweights_, p.1 = GetKey p.2 := by
  rw [getFlyweight_fst]
  unfold mapInsert
  cases mapFind? f.flyweights_ (GetKey ss) with
  | some fw => exact h
  | none =>
    intro p hp
    rw [List.mem_append, List.mem_singleton] at hp
    rcases hp with hp | hp
    · exact h p hp
    · rw [hp]

theorem keyConsistent_runFactory (f : FlyweightFactory) (ops : List SharedState)
    (h : ∀ p ∈ f.flyweights_, p.1 = GetKey p.2) :
    ∀ p ∈ (runFactory f ops).flyweights_, p.1 = GetKey p.2 := by
  induction ops generalizing f with
  | nil => exact h
  | cons ss rest ih =>
    rw [runFactory_cons]
    exact ih _ (keyConsistent_getFlyweight f ss h)

/-! ## Observer lemmas -/

theorem runOps_nil (w : ObsWorld) : runOps w [] = w := rfl

theorem runOps_cons (w : ObsWorld) (op : Op) (ops : List Op) :
    runOps w (op :: ops) = runOps (w.step op) ops := rfl

theorem step_newObserver (w : ObsWorld) :
    w.step Op.newObserver =
      ⟨w.static_number_ + 1, w.constructed ++ [w.static_number_ + 1],
        w.subject.Attach (w.static_number_ + 1)⟩ := rfl

/-- Invariant tying constructed numbers to the counter: they are strictly
increasing (in construction order) and all bounded by the counter. -/
def counterInv (w : ObsWorld) : Prop :=
  w.constructed.Pairwise (· < ·) ∧ ∀ x ∈ w.constructed, x ≤ w.static_number_

theorem counterInv_step (w : ObsWorld) (op : Op) (h : counterInv w) :
    counterInv (w.step op) := by
  obtain ⟨hpw, hle⟩ := h
  cases op with
  | newObserver =>
    rw [step_newObserver]
    refine ⟨?_, ?_⟩
    · rw [List.pairwise_append]
      refine ⟨hpw, List.pairwise_singleton _ _, ?_⟩
      intro a ha b hb
      rw [List.mem_singleton] at hb
      subst hb
      exact Nat.lt_succ_of_le (hle a ha)
    · intro x hx
      rw [List.mem_append, List.mem_singleton] at hx
      rcases hx with hx | hx
      · exact Nat.le_succ_of_le (hle x hx)
      · exact hx.le
  | detachObs o => exact ⟨hpw, hle⟩
  | attachObs o => exact ⟨hpw, hle⟩

theorem counterInv_runOps (w : ObsWorld) (ops : List Op) (h : counterInv w) :
    counterInv (runOps w ops) := by
  induction ops generalizing w with
  | nil => exact h
  | cons op rest ih => exact ih _ (counterInv_step w op h)

theorem constructed_of_step (w : ObsWorld) (op : Op) :
    w.constructed <+: (w.step op).constructed := by
  cases op with
  | newObserver => exact ⟨_, rfl⟩
  | detachObs o => exact List.prefix_rfl
  | attachObs o => exact List.prefix_rfl

theorem constructed_of_runOps (w : ObsWorld) (ops : List Op) :
    w.constructed <+: (runOps w ops).constructed := by
  induction ops generalizing w with
  | nil => exact List.prefix_rfl
  | cons op rest ih => exact (constructed_of_step w op).trans (ih (w.step op))

theorem attachAll_list (s : Subject) (os : List Nat) :
    (attachAll s os).list_observer_ = s.list_observer_ ++ os ∧
      (attachAll s os).message_ = s.message_ := by
  induction os generalizing s with
  | nil => simp [attachAll]
  | cons o rest ih =>
    have h := ih (s.Attach o)
    refine ⟨?_, h.2⟩
    rw [show attachAll s (o :: rest) = attachAll (s.Attach o) rest from rfl, h.1]
    simp [Subject.Attach]

theorem updatesOf_map_update (l : List Nat) (m : String) :
    updatesOf (l.map (fun o => Event.update o m)) = l.map (fun o => (o, m)) := by
  induction l with
  | nil => rfl
  | cons o rest ih => simpa [updatesOf, List.filterMap_cons] using ih

theorem updatesOf_Notify (s : Subject) :
    updatesOf s.Notify = s.list_observer_.map (fun o => (o, s.message_)) := by
  rw [Subject.Notify]
  simpa [updatesOf, List.filterMap_cons] using
    updatesOf_map_update s.list_observer_ s.message_

/-! ## The claims -/

/-- C1: Interning identity — for any registry and any two `SharedState`
values with identical field tuples, `GetFlyweight` on the first and then on
the second returns entries with equal `SharedState` content, and `count()`
after the second call equals `count()` after the first. -/
theorem intern_identity (f : FlyweightFactory) (a b : SharedState)
    (hbrand : a.brand_ = b.brand_) (hmodel : a.model_ = b.model_)
    (hcolor : a.color_ = b.color_) :
    ((f.GetFlyweight a).1.GetFlyweight b).2.1 = (f.GetFlyweight a).2.1 ∧
      ((f.GetFlyweight a).1.GetFlyweight b).1.count = (f.GetFlyweight a).1.count := by
  have hkey : GetKey a = GetKey b := by
    unfold GetKey
    rw [hbrand, hmodel, hcolor]
  cases h : mapFind? f.flyweights_ (GetKey a) with
  | some fw =>
    have h1 := getFlyweight_found f a fw h
    have h2 := getFlyweight_found f b fw (by rw [← hkey]; exact h)
    simp [h1, h2]
  | none =>
    have h1 := getFlyweight_notFound f a h
    have hfind : mapFind? (f.flyweights_ ++ [(GetKey a, a)]) (GetKey b) = some a := by
      rw [← hkey, mapFind?_append_of_none _ _ _ h, mapFind?_cons]
      simp
    have h2 := getFlyweight_found ⟨f.flyweights_ ++ [(GetKey a, a)]⟩ b a hfind
    simp [h1, h2]

/-- Witness for C1 at the concrete state `{"BMW", "M5", "red"}` interned
twice on the empty registry. -/
theorem intern_identity_witness :
    (((mkFactory []).GetFlyweight bmwM5red).1.GetFlyweight bmwM5red).2.1 =
        ((mkFactory []).GetFlyweight bmwM5red).2.1 ∧
      (((mkFactory []).GetFlyweight bmwM5red).1.GetFlyweight bmwM5red).1.count =
        ((mkFactory []).GetFlyweight bmwM5red).1.count :=
  intern_identity (mkFactory []) bmwM5red bmwM5red rfl rfl rfl

/-- C2 counterexample: the two states `sepInBrand = {"A_B","C","D"}` and
`sepInModel = {"A","B_C","D"}` differ in their fields, yet `GetKey` maps
both to `"A_B_C_D"`, so interning them lands on the same cache entry: the
second request reports "reused" and `count()` stays 1 — the claim that any
two states differing in a field produce distinct keys is false as stated. -/
theorem intern_distinctness_cex :
    sepInBrand ≠ sepInModel ∧
      GetKey sepInBrand = GetKey sepInModel ∧
      (((mkFactory []).GetFlyweight sepInBrand).1.GetFlyweight sepInModel).2.2 = false ∧
      (((mkFactory []).GetFlyweight sepInBrand).1.GetFlyweight sepInModel).1.count = 1 := by
  decide

/-- C2 amended: for any two states whose composite keys differ, interning
both leaves entries stored under the two distinct keys; and across any call
sequence (constructor population followed by `GetFlyweight` calls) `count()`
equals the number of distinct composite keys requested — it increases
exactly once per distinct key. -/
theorem intern_distinctness_amended :
    (∀ (f : FlyweightFactory) (a b : SharedState), GetKey a ≠ GetKey b →
        GetKey a ∈ ((f.GetFlyweight a).1.GetFlyweight b).1.keys ∧
        GetKey b ∈ ((f.GetFlyweight a).1.GetFlyweight b).1.keys) ∧
      ∀ (init ops : List SharedState),
        (runFactory (mkFactory init) ops).count =
          ((init ++ ops).map GetKey).toFinset.card := by
  constructor
  · intro f a b _hne
    constructor
    · have h1 : GetKey a ∈ (f.GetFlyweight a).1.keys := by
        rw [getFlyweight_fst]
        exact mem_keys_mapInsert_self _ _ _
      rw [getFlyweight_fst (f.GetFlyweight a).1 b]
      exact keys_subset_mapInsert _ _ _ _ h1
    · rw [getFlyweight_fst]
      exact mem_keys_mapInsert_self _ _ _
  · intro init ops
    rw [mkFactory_eq_runFactory, ← runFactory_append,
      count_eq_card_of_nodup _ (nodup_keys_runFactory ⟨[]⟩ _ (by simp)),
      toFinset_keys_runFactory]
    simp

/-- Witness for C2 amended: the two demo states have distinct keys, both of
which are stored after interning them; and on the sequence that interns
`{"BMW","M5","red"}` alone, `count()` is the number of distinct keys. -/
theorem intern_distinctness_witness :
    (GetKey bmwM5red ∈ (((mkFactory []).GetFlyweight bmwM5red).1.GetFlyweight bmwX1red).1.keys ∧
      GetKey bmwX1red ∈ (((mkFactory []).GetFlyweight bmwM5red).1.GetFlyweight bmwX1red).1.keys) ∧
      (runFactory (mkFactory []) [bmwM5red]).count =
        (([] ++ [bmwM5red]).map GetKey).toFinset.card :=
  ⟨intern_distinctness_amended.1 (mkFactory []) bmwM5red bmwX1red (by decide),
    intern_distinctness_amended.2 [] [bmwM5red]⟩

/-- C7: `count()` is the number of distinct stored entries (the stored keys
are pairwise distinct after any constructor population and `GetFlyweight`
sequence) and it never decreases across a `GetFlyweight` call — no
operation removes an entry. -/
theorem count_monotone :
    (∀ (f : FlyweightFactory) (ss : SharedState), f.count ≤ (f.GetFlyweight ss).1.count) ∧
      ∀ (init ops : List SharedState), (runFactory (mkFactory init) ops).keys.Nodup := by
  constructor
  · intro f ss
    rw [getFlyweight_fst]
    show f.flyweights_.length ≤ (mapInsert f.flyweights_ (GetKey ss) ss).length
    unfold mapInsert
    cases mapFind? f.flyweights_ (GetKey ss) with
    | some fw => exact Nat.le_refl _
    | none => simp
  · intro init ops
    rw [mkFactory_eq_runFactory, ← runFactory_append]
    exact nodup_keys_runFactory ⟨[]⟩ _ (by simp)

/-- C8: the concrete Flyweight scenario — starting from an empty registry,
the first request of `{"BMW","M5","red"}` registers it and reports
"creating a new one", the second request reports "Reusing" with `count()`
still 1, and a subsequent request of `{"BMW","X1","red"}` reports
"creating a new one" and leaves `count()` at 2. -/
theorem flyweight_scenario :
    ((mkFactory []).GetFlyweight bmwM5red).2.2 = true ∧
      reportOf ((mkFactory []).GetFlyweight bmwM5red).2.2 =
        "FlyweightFactory: Can\x27t find a flyweight, creating a new one.\n" ∧
      (((mkFactory []).GetFlyweight bmwM5red).1.GetFlyweight bmwM5red).2.2 = false ∧
      reportOf (((mkFactory []).GetFlyweight bmwM5red).1.GetFlyweight bmwM5red).2.2 =
        "FlyweightFactory: Reusing existing flyweight.\n" ∧
      (((mkFactory []).GetFlyweight bmwM5red).1.GetFlyweight bmwM5red).1.count = 1 ∧
      ((((mkFactory []).GetFlyweight bmwM5red).1.GetFlyweight
          bmwM5red).1.GetFlyweight bmwX1red).2.2 = true ∧
      ((((mkFactory []).GetFlyweight bmwM5red).1.GetFlyweight
          bmwM5red).1.GetFlyweight bmwX1red).1.count = 2 := by
  decide

/-- C10: registry key-consistency — after constructor population and any
sequence of `GetFlyweight` calls, every entry of the map is stored under
exactly the key `GetKey` computes from the `SharedState` it holds. -/
theorem registry_key_consistency (init ops : List SharedState) :
    ∀ p ∈ (runFactory (mkFactory init) ops).flyweights_, p.1 = GetKey p.2 := by
  rw [mkFactory_eq_runFactory, ← runFactory_append]
  exact keyConsistent_runFactory ⟨[]⟩ _ (by simp)

/-- Witness for C10 at the entry created by interning `{"BMW","M5","red"}`
on the empty registry. -/
theorem registry_key_consistency_witness :
    ("BMW_M5_red", bmwM5red) ∈ (runFactory (mkFactory []) [bmwM5red]).flyweights_ ∧
      "BMW_M5_red" = GetKey bmwM5red :=
  ⟨by decide, registry_key_consistency [] [bmwM5red] ("BMW_M5_red", bmwM5red) (by decide)⟩

/-- C3 counterexample: on the subscriber sequence `[1, 1]` (observer 1
attached twice), the code removes every matching entry
(`std::list::remove`), leaving `[]`, whereas removing only the first
matching entry would leave `[1]` — so "removes the first matching entry" is
false as stated. -/
theorem detach_first_cex :
    (Subject.Detach ⟨[1, 1], ""⟩ 1).list_observer_ = [] ∧
      (detachFirstSpec ⟨[1, 1], ""⟩ 1).list_observer_ = [1] ∧
      Subject.Detach ⟨[1, 1], ""⟩ 1 ≠ detachFirstSpec ⟨[1, 1], ""⟩ 1 := by
  decide

/-- C3 amended: `Detach` removes every matching entry (coinciding with "the
first matching entry" when the observer is attached at most once); it is a
no-op when the observer is absent, never fails, and a second `Detach` of an
already-detached observer changes nothing — in particular `size()` is
unchanged on the second call. -/
theorem detach_semantics (s : Subject) (o : Nat) :
    (o ∉ s.list_observer_ → s.Detach o = s) ∧
      o ∉ (s.Detach o).list_observer_ ∧
      (s.Detach o).Detach o = s.Detach o ∧
      ((s.Detach o).Detach o).size = (s.Detach o).size := by
  obtain ⟨l, m⟩ := s
  have hmem : ∀ l' : List Nat, o ∉ l'.filter (fun x => x ≠ o) := by
    intro l' hmem
    have := (List.mem_filter.mp hmem).2
    simp at this
  have hidem : (List.filter (fun x => x ≠ o) l).filter (fun x => x ≠ o) =
      l.filter (fun x => x ≠ o) :=
    List.filter_eq_self.mpr fun a ha => (List.mem_filter.mp ha).2
  refine ⟨?_, hmem l, ?_, ?_⟩
  · intro ho
    have hl : List.filter (fun x => x ≠ o) l = l :=
      List.filter_eq_self.mpr fun a ha => by
        simp only [decide_eq_true_eq]
        intro he
        exact ho (he ▸ ha)
    show Subject.mk (List.filter (fun x => x ≠ o) l) m = ⟨l, m⟩
    rw [hl]
  · simp [Subject.Detach, hidem]
  · simp [Subject.Detach, Subject.size, hidem]

/-- Witness for C3 amended: detaching the absent observer 3 from the
sequence `[1, 2]`. -/
theorem detach_semantics_witness :
    (Subject.Detach ⟨[1, 2], "m"⟩ 3 = ⟨[1, 2], "m"⟩) ∧
      3 ∉ (Subject.Detach ⟨[1, 2], "m"⟩ 3).list_observer_ ∧
      (Subject.Detach ⟨[1, 2], "m"⟩ 3).Detach 3 = Subject.Detach ⟨[1, 2], "m"⟩ 3 ∧
      ((Subject.Detach ⟨[1, 2], "m"⟩ 3).Detach 3).size =
        (Subject.Detach ⟨[1, 2], "m"⟩ 3).size :=
  ⟨(detach_semantics ⟨[1, 2], "m"⟩ 3).1 (by decide),
    (detach_semantics ⟨[1, 2], "m"⟩ 3).2.1,
    (detach_semantics ⟨[1, 2], "m"⟩ 3).2.2.1,
    (detach_semantics ⟨[1, 2], "m"⟩ 3).2.2.2⟩

/-- C4 counterexample: with an empty subscriber list, `Notify` still calls
`HowManyObservers`, which prints "There are 0 observers in the list." — so
`notify()` is not silent: its output is nonempty, refuting "produces no
output". -/
theorem notify_empty_cex :
    Subject.Notify ⟨[], "msg"⟩ = [Event.countAnnounce 0] ∧
      renderAll (Subject.Notify ⟨[], "msg"⟩) ≠ "" := by
  decide

/-- C4 amended: with an empty subscriber list, `Notify` invokes no
subscriber update callback; its only effect is the observer-count
announcement "There are 0 observers in the list.". -/
theorem notify_empty (s : Subject) (h : s.list_observer_ = []) :
    updatesOf s.Notify = [] ∧
      s.Notify = [Event.countAnnounce 0] ∧
      renderAll s.Notify = "There are 0 observers in the list.\n" := by
  obtain ⟨l, m⟩ := s
  have h' : l = [] := h
  subst h'
  refine ⟨rfl, rfl, ?_⟩
  show renderAll [Event.countAnnounce 0] = "There are 0 observers in the list.\n"
  decide

/-- Witness for C4 amended at a concrete empty-list subject. -/
theorem notify_empty_witness :
    updatesOf (Subject.Notify ⟨[], "x"⟩) = [] ∧
      Subject.Notify ⟨[], "x"⟩ = [Event.countAnnounce 0] ∧
      renderAll (Subject.Notify ⟨[], "x"⟩) = "There are 0 observers in the list.\n" :=
  notify_empty ⟨[], "x"⟩ rfl

/-- C5: Observer numbering — starting from the program-start state (counter
0), after any sequence of observer constructions interleaved with attach and
detach operations, the assigned numbers are strictly increasing in
construction order (hence unique and never reused); already assigned numbers
are retained unchanged by any further operations (the constructed-numbers
list only ever grows at the end); and the first observer gets number 1. -/
theorem observer_numbering :
    (∀ ops : List Op, (runOps initialWorld ops).constructed.Pairwise (· < ·)) ∧
      (∀ ops : List Op, (runOps initialWorld ops).constructed.Nodup) ∧
      (∀ (w : ObsWorld) (ops : List Op), w.constructed <+: (runOps w ops).constructed) ∧
      (runOps initialWorld [Op.newObserver]).constructed = [1] := by
  have hinv : ∀ ops : List Op, counterInv (runOps initialWorld ops) := fun ops =>
    counterInv_runOps initialWorld ops
      ⟨List.Pairwise.nil, fun x hx => absurd hx (List.not_mem_nil x)⟩
  refine ⟨fun ops => (hinv ops).1, fun ops => ?_, constructed_of_runOps, rfl⟩
  exact ((hinv ops).1).imp (fun h => Nat.ne_of_lt h)

/-- C6: Order preservation — for a subject whose subscribers were attached
in the order given by `os` (and with current message `m`), `Notify` delivers
the update callbacks exactly in attachment order with the current message;
when no observer was attached twice, no subscriber is invoked more than once
and every attached subscriber is invoked. -/
theorem notify_order (os : List Nat) (m : String) :
    updatesOf (Subject.Notify (attachAll ⟨[], m⟩ os)) = os.map (fun o => (o, m)) ∧
      (os.Nodup → (updatesOf (Subject.Notify (attachAll ⟨[], m⟩ os))).Nodup) ∧
      ∀ o ∈ os, (o, m) ∈ updatesOf (Subject.Notify (attachAll ⟨[], m⟩ os)) := by
  obtain ⟨hlist, hmsg⟩ := attachAll_list ⟨[], m⟩ os
  have h1 : updatesOf (Subject.Notify (attachAll ⟨[], m⟩ os)) =
      os.map (fun o => (o, m)) := by
    rw [updatesOf_Notify, hlist, hmsg]
    simp
  refine ⟨h1, ?_, ?_⟩
  · intro hnd
    rw [h1]
    exact hnd.map (fun a b hab => by simpa using congrArg Prod.fst hab)
  · intro o ho
    rw [h1]
    exact List.mem_map_of_mem _ ho

/-- Witness for C6 with observers `[1, 2]` and message `"Hello"`. -/
theorem notify_order_witness :
    updatesOf (Subject.Notify (attachAll ⟨[], "Hello"⟩ [1, 2])) =
        [1, 2].map (fun o => (o, "Hello")) ∧
      (updatesOf (Subject.Notify (attachAll ⟨[], "Hello"⟩ [1, 2]))).Nodup ∧
      (1, "Hello") ∈ updatesOf (Subject.Notify (attachAll ⟨[], "Hello"⟩ [1, 2])) :=
  ⟨(notify_order [1, 2] "Hello").1,
    (notify_order [1, 2] "Hello").2.1 (by decide),
    (notify_order [1, 2] "Hello").2.2 1 (by decide)⟩

/-- C9: `CreateMessage` called with no argument uses the default parameter
value `"Empty"`: it sets the current message to `"Empty"` and notifies every
attached subscriber with `"Empty"`. -/
theorem createMessage_default (s : Subject) :
    (Subject.CreateMessage s).1.message_ = "Empty" ∧
      updatesOf (Subject.CreateMessage s).2 =
        s.list_observer_.map (fun o => (o, "Empty")) := by
  refine ⟨rfl, ?_⟩
  show updatesOf (Subject.Notify { s with message_ := "Empty" }) = _
  rw [updatesOf_Notify]

end DesignPatterns
